import Mathlib

/-!
Shallow embedding of src/fashion-hyperparameter/optimize_class.py.

Python dictionaries are modelled as association lists with first-match
lookup and update-in-place insertion, which matches dict semantics on
duplicate-free key lists. Python floats are modelled as rationals.
Fallible Python operations (dict subscript, division, file loading) are
modelled in the Except monad over an error type mirroring the Python
exception classes that can arise.
-/
namespace OptimizeClass

/-! ### Definitions -/

/-- Python exception classes that the embedded code can raise. -/
inductive PyError where
  | fileNotFoundError
  | keyError
  | zeroDivisionError
  | typeError
  deriving DecidableEq, Repr

/-- YAML scalar values as they appear in the config files handled by the
script (strings and integers suffice for the claims under study). -/
inductive YVal where
  | str (s : String)
  | num (n : Int)
  deriving DecidableEq, Repr

/-- Python str() on the modelled scalars. -/
def YVal.pyStr : YVal → String
  | .str s => s
  | .num n => toString n

/-- First-match lookup in an association list: Python d[k] / d.get(k). -/
def dictGet {α : Type} : List (String × α) → String → Option α
  | [], _ => none
  | kv :: rest, k => if kv.1 = k then some kv.2 else dictGet rest k

/-- Python d[k] = v: replace the first binding of k in place, else append. -/
def dictInsert {α : Type} : List (String × α) → String → α → List (String × α)
  | [], k, v => [(k, v)]
  | kv :: rest, k, v => if kv.1 = k then (k, v) :: rest else kv :: dictInsert rest k v

/-- Python del d[k]: drop the first binding of k. -/
def dictErase {α : Type} : List (String × α) → String → List (String × α)
  | [], _ => []
  | kv :: rest, k => if kv.1 = k then rest else kv :: dictErase rest k

/-! ## The OptimizerCallback accumulator (optimize_class.py lines 84-100) -/
/-- One entry of doc.evaluations in a Jina search response. -/
structure Evaluation where
  op_name : String
  value : Rat
  deriving DecidableEq, Repr

/-- One entry of response.search.docs. -/
structure SearchDoc where
  evaluations : List Evaluation
  deriving DecidableEq, Repr

/-- One response delivered to the output callback of a query flow. -/
structure Response where
  docs : List SearchDoc
  deriving DecidableEq, Repr

/-- State of OptimizerCallback: op_name, evaluation_values, n_docs. -/
structure OptimizerCallback where
  op_name : Option String
  evaluation_values : List (String × Rat)
  n_docs : Nat
  deriving DecidableEq, Repr

/-- OptimizerCallback.__init__ (lines 85-88). -/
def OptimizerCallback.init (op : Option String) : OptimizerCallback :=
  { op_name := op, evaluation_values := [], n_docs := 0 }

/-- Line 100: evaluation_values[op] = evaluation_values.get(op, 0.0) + value. -/
def processEval (vals : List (String × Rat)) (e : Evaluation) : List (String × Rat) :=
  dictInsert vals e.op_name ((dictGet vals e.op_name).getD 0 + e.value)

/-- Lines 98-100: the inner loop over one document. -/
def processDoc (vals : List (String × Rat)) (d : SearchDoc) : List (String × Rat) :=
  d.evaluations.foldl processEval vals

/-- OptimizerCallback.process_result (lines 95-100). -/
def OptimizerCallback.process_result (cb : OptimizerCallback) (r : Response) :
    OptimizerCallback :=
  { cb with
    n_docs := cb.n_docs + r.docs.length
    evaluation_values := r.docs.foldl processDoc cb.evaluation_values }

/-- Result of get_mean_evaluation: a scalar when op_name is set, otherwise a
dictionary over all metrics. -/
inductive MeanResult where
  | scalar (q : Rat)
  | dict (d : List (String × Rat))
  deriving DecidableEq, Repr

/-- Python division val / n_docs, raising ZeroDivisionError at zero. -/
def ratDiv (a : Rat) (n : Nat) : Except PyError Rat :=
  if n = 0 then .error .zeroDivisionError else .ok (a / (n : Rat))

/-- The dict comprehension of line 93, evaluated entry by entry in order. -/
def mapValsDiv : List (String × Rat) → Nat → Except PyError (List (String × Rat))
  | [], _ => .ok []
  | kv :: rest, n => do
    let q ← ratDiv kv.2 n
    let rest1 ← mapValsDiv rest n
    .ok ((kv.1, q) :: rest1)

/-- OptimizerCallback.get_mean_evaluation (lines 90-93). The subscript
evaluation_values[op_name] raises KeyError on a missing key, before any
division happens. -/
def OptimizerCallback.get_mean_evaluation (cb : OptimizerCallback) :
    Except PyError MeanResult :=
  match cb.op_name with
  | some op =>
    match dictGet cb.evaluation_values op with
    | none => .error .keyError
    | some v => (ratDiv v cb.n_docs).map .scalar
  | none => (mapValsDiv cb.evaluation_values cb.n_docs).map .dict

/-- Folding a whole sequence of responses into the callback, in order. -/
def run_callback (cb : OptimizerCallback) (rs : List Response) : OptimizerCallback :=
  rs.foldl OptimizerCallback.process_result cb

/-! Sums of recorded values, for stating the accumulator lemmas. -/
/-- The running sum recorded for metric k (0 when the key is absent). -/
def valsSum (vals : List (String × Rat)) (k : String) : Rat :=
  ((dictGet vals k).getD 0 : Rat)

/-- Sum of the values of the evaluations named k in one document. -/
def evalsSum (k : String) (es : List Evaluation) : Rat :=
  ((es.filter (fun e => e.op_name == k)).map (fun e => e.value)).sum

/-- Whether some evaluation named k occurs in the list. -/
def evalsHas (k : String) (es : List Evaluation) : Bool :=
  es.any (fun e => e.op_name == k)

/-- Sum over the documents of one response of the values for metric k. -/
def docsSum (k : String) (docs : List SearchDoc) : Rat :=
  (docs.map (fun d => evalsSum k d.evaluations)).sum

/-- Whether metric k occurs in some document of the list. -/
def docsHas (k : String) (docs : List SearchDoc) : Bool :=
  docs.any (fun d => evalsHas k d.evaluations)

/-- Total value recorded for metric k over a sequence of responses. -/
def metricSum (k : String) (rs : List Response) : Rat :=
  (rs.map (fun r => docsSum k r.docs)).sum

/-- Whether metric k occurs anywhere in a sequence of responses. -/
def rsHas (k : String) (rs : List Response) : Bool :=
  rs.any (fun r => docsHas k r.docs)

/-- Total number of documents over a sequence of responses. -/
def totalDocs (rs : List Response) : Nat :=
  (rs.map (fun r => r.docs.length)).sum

instance {ε α : Type} [DecidableEq ε] [DecidableEq α] : DecidableEq (Except ε α) := fun a b =>
  match a, b with
  | .ok x, .ok y =>
    if h : x = y then .isTrue (by rw [h]) else .isFalse (fun he => h (Except.ok.inj he))
  | .error x, .error y =>
    if h : x = y then .isTrue (by rw [h]) else .isFalse (fun he => h (Except.error.inj he))
  | .ok _, .error _ => .isFalse (fun he => Except.noConfusion he)
  | .error _, .ok _ => .isFalse (fun he => Except.noConfusion he)

/-! ## FlowRunner (optimize_class.py lines 15-81)

The file system and process environment are modelled explicitly; the
external pipeline engine is abstracted by fallible flowIndex / flowQuery
functions, and invocations of it are recorded as events. -/
/-- The FlowRunner construction arguments relevant to the claims. -/
structure RunnerCfg where
  env_yaml : Option String
  workspace_env : String
  overwrite_workspace : Bool
  deriving DecidableEq, Repr

/-- Mutable state touched by FlowRunner: os.environ, the env_parameters
attribute set by _load_env, and the set of existing directories. -/
structure SysState where
  environ : List (String × String)
  env_parameters : Option (List (String × YVal))
  dirs : List String
  deriving DecidableEq, Repr

/-- Observable actions of a run, in order. -/
inductive Event where
  | workspaceDeleted (w : String)
  | flowIndexed (yaml : String)
  | flowQueried (yaml : String)
  deriving DecidableEq, Repr

/-- yaml.load(open(path)): FileNotFoundError when the path is absent. -/
def loadYaml {α : Type} (files : List (String × α)) (path : String) : Except PyError α :=
  match dictGet files path with
  | some d => .ok d
  | none => .error .fileNotFoundError

/-- FlowRunner._load_env (lines 39-47): when env_yaml is set, parse it,
store it in env_parameters and export each entry into os.environ as a
string; otherwise do nothing. -/
def load_env (files : List (String × List (String × YVal))) (cfg : RunnerCfg)
    (st : SysState) : Except PyError SysState :=
  match cfg.env_yaml with
  | none => .ok st
  | some p => do
    let params ← loadYaml files p
    .ok { st with
          env_parameters := some params
          environ := params.foldl (fun e kv => dictInsert e kv.1 kv.2.pyStr) st.environ }

/-- Line 51: Path(os.environ.get(workspace_env, workspace)); Path(None)
raises TypeError. -/
def resolveWorkspace (environ : List (String × String)) (workspace_env : String)
    (workspace : Option String) : Except PyError String :=
  match dictGet environ workspace_env with
  | some v => .ok v
  | none =>
    match workspace with
    | some w => .ok w
    | none => .error .typeError

/-- FlowRunner.clean_workdir (lines 30-37): rmtree only when the workspace
exists. -/
def clean_workdir (dirs : List String) (w : String) : List String × List Event :=
  if w ∈ dirs then (dirs.erase w, [.workspaceDeleted w]) else (dirs, [])

/-- FlowRunner.run_indexing (lines 49-65). -/
def run_indexing (files : List (String × List (String × YVal))) (cfg : RunnerCfg)
    (flowIndex : String → Except PyError Unit) (st : SysState)
    (index_yaml : String) (workspace : Option String) :
    Except PyError (SysState × List Event) := do
  let st1 ← load_env files cfg st
  let ws ← resolveWorkspace st1.environ cfg.workspace_env workspace
  if ws ∈ st1.dirs then
    if cfg.overwrite_workspace then
      let cleaned := clean_workdir st1.dirs ws
      let _ ← flowIndex index_yaml
      .ok ({ st1 with dirs := cleaned.1 }, cleaned.2 ++ [.flowIndexed index_yaml])
    else
      .ok (st1, [])
  else
    let _ ← flowIndex index_yaml
    .ok (st1, [.flowIndexed index_yaml])

/-- FlowRunner.run_querying (lines 67-76): the search flow feeds each
response to the callback. -/
def run_querying (files : List (String × List (String × YVal))) (cfg : RunnerCfg)
    (flowQuery : String → Except PyError (List Response)) (st : SysState)
    (query_yaml : String) (cb : OptimizerCallback) :
    Except PyError (SysState × OptimizerCallback × List Event) := do
  let st1 ← load_env files cfg st
  let rs ← flowQuery query_yaml
  .ok (st1, run_callback cb rs, [.flowQueried query_yaml])

/-- FlowRunner.run_evaluation (lines 78-81). -/
def run_evaluation (files : List (String × List (String × YVal))) (cfg : RunnerCfg)
    (flowIndex : String → Except PyError Unit)
    (flowQuery : String → Except PyError (List Response)) (st : SysState)
    (index_yaml query_yaml workspace : String) (cb : OptimizerCallback) :
    Except PyError (SysState × OptimizerCallback × List Event) := do
  let st1 ← load_env files cfg st
  let res1 ← run_indexing files cfg flowIndex st1 index_yaml (some workspace)
  let res2 ← run_querying files cfg flowQuery res1.1 query_yaml cb
  .ok (res2.1, res2.2.1, res1.2 ++ res2.2.2)

/-! ## Optimizer (optimize_class.py lines 103-204) -/
/-- Python str.lstrip with argument a dollar sign: remove ALL leading
dollar characters. -/
def lstripDollar (s : String) : String :=
  String.mk (s.toList.dropWhile (fun c => c == '$'))

/-- Lines 139-141: one value of a with/metas section; replaced by the
trial parameter it names (after lstrip) when one exists, else kept. -/
def substVal (trial : List (String × YVal)) (v : YVal) : YVal :=
  match dictGet trial (lstripDollar v.pyStr) with
  | some tv => tv
  | none => v

/-- The loop of lines 138-141 over the entries of one section. -/
def replace_section (trial : List (String × YVal)) (entries : List (String × YVal)) :
    List (String × YVal) :=
  entries.map (fun kv => (kv.1, substVal trial kv.2))

/-- Optimizer._replace_param (lines 134-142): only the sections named
with and metas are rewritten; every other section is untouched. -/
def replace_param (parameters : List (String × List (String × YVal)))
    (trial : List (String × YVal)) : List (String × List (String × YVal)) :=
  parameters.map (fun sec =>
    (sec.1, if sec.1 = "with" ∨ sec.1 = "metas" then replace_section trial sec.2
            else sec.2))

/-- Python str.lstrip of one leading dollar, as the claim words it. -/
def stripOneDollar (s : String) : String :=
  match s.toList with
  | c :: rest => if c == '$' then String.mk rest else s
  | [] => s

/-- Modelled from the claim wording, for comparison with replace_param:
substitution applied to every section of the file, replacing every value
whose name after stripping a leading dollar matches a sampled parameter. -/
def replace_param_claimed (parameters : List (String × List (String × YVal)))
    (trial : List (String × YVal)) : List (String × List (String × YVal)) :=
  parameters.map (fun sec =>
    (sec.1, sec.2.map (fun kv =>
      (kv.1, match dictGet trial (stripOneDollar kv.2.pyStr) with
             | some tv => tv
             | none => kv.2))))

/-- Value of one parameter of one section of a config mapping. -/
def paramAt (parameters : List (String × List (String × YVal))) (s p : String) :
    Option YVal :=
  (dictGet parameters s).bind (fun es => dictGet es p)

/-- Optimizer._export_params (lines 190-197): all_params is the Python
dict merge of env_parameters with the best-trial parameters, the latter
winning on key collisions. -/
def export_params (env_parameters best_params : List (String × YVal)) :
    List (String × YVal) :=
  best_params.foldl (fun d kv => dictInsert d kv.1 kv.2) env_parameters

/-- The loop of lines 125-128 of _trial_parameter_sampler: for each
parameter, read its type key (KeyError when absent), call the external
suggest entry point with the remaining keyword arguments, and record the
sampled value; any failure aborts the loop. -/
def sampleParams (suggest : String → String → List (String × YVal) → Except PyError YVal) :
    List (String × YVal) → List (String × List (String × YVal)) →
    Except PyError (List (String × YVal))
  | acc, [] => .ok acc
  | acc, pkv :: rest =>
    match dictGet pkv.2 "type" with
    | none => .error .keyError
    | some t => do
      let v ← suggest ("suggest_" ++ t.pyStr) pkv.1 (dictErase pkv.2 "type")
      sampleParams suggest (dictInsert acc pkv.1 v) rest

/-- Optimizer._trial_parameter_sampler (lines 119-132): load the
parameter YAML, sample every parameter through the external search
library, then derive the trial workspace name from the sampled values and
add it under workspace_env. -/
def trial_parameter_sampler
    (files : List (String × List (String × List (String × YVal))))
    (parameter_yaml workspace_env : String)
    (suggest : String → String → List (String × YVal) → Except PyError YVal) :
    Except PyError (List (String × YVal) × String) := do
  let params ← loadYaml files parameter_yaml
  let tp ← sampleParams suggest [] params
  let ws := "JINA_WORKSPACE_" ++ String.intercalate "_" (tp.map (fun kv => kv.2.pyStr))
  Except.ok (dictInsert tp workspace_env (.str ws), ws)

/-! ### Theorems -/

theorem dictGet_dictInsert {α : Type} (d : List (String × α)) (k k1 : String) (v : α) :
    dictGet (dictInsert d k v) k1 = if k = k1 then some v else dictGet d k1 := by
  induction d with
  | nil => simp [dictGet, dictInsert]
  | cons kv rest ih =>
    simp only [dictInsert]
    by_cases h : kv.1 = k
    · subst h
      simp only [if_pos rfl, dictGet]
      by_cases h1 : kv.1 = k1 <;> simp_all [dictGet]
    · simp only [if_neg h, dictGet, ih]
      by_cases h1 : kv.1 = k1 <;> by_cases h2 : k = k1 <;> simp_all

theorem dictGet_eq_none_of_not_mem {α : Type} (d : List (String × α)) (k : String)
    (h : k ∉ d.map Prod.fst) : dictGet d k = none := by
  induction d with
  | nil => rfl
  | cons kv rest ih =>
    simp only [List.map_cons, List.mem_cons] at h
    push_neg at h
    have h1 : ¬ kv.1 = k := fun he => h.1 he.symm
    simp [dictGet, h1, ih h.2]

theorem mem_keys_of_dictGet_eq_some {α : Type} (d : List (String × α)) (k : String) (v : α)
    (h : dictGet d k = some v) : k ∈ d.map Prod.fst := by
  by_contra hmem
  rw [dictGet_eq_none_of_not_mem d k hmem] at h
  exact Option.noConfusion h

/-- Lookup through a value-only transformation of an association list. -/
theorem dictGet_map_value {α β : Type} (d : List (String × α)) (f : α → β) (k : String) :
    dictGet (d.map (fun kv => (kv.1, f kv.2))) k = (dictGet d k).map f := by
  induction d with
  | nil => rfl
  | cons kv rest ih =>
    by_cases h : kv.1 = k <;> simp [dictGet, h, ih]

theorem evalsSum_eq_zero_of_not_has (k : String) (es : List Evaluation)
    (h : evalsHas k es = false) : evalsSum k es = 0 := by
  induction es with
  | nil => rfl
  | cons e rest ih =>
    simp only [evalsHas, List.any_cons, Bool.or_eq_false_iff] at h
    simp only [evalsSum, List.filter_cons, h.1, Bool.false_eq_true, if_false]
    exact ih h.2

theorem dictGet_processEval (vals : List (String × Rat)) (e : Evaluation) (k : String) :
    dictGet (processEval vals e) k =
      if e.op_name = k then some (valsSum vals k + e.value) else dictGet vals k := by
  simp only [processEval, dictGet_dictInsert]
  by_cases hk : e.op_name = k
  · subst hk; simp [valsSum]
  · simp [hk]

theorem valsSum_processEval (vals : List (String × Rat)) (e : Evaluation) (k : String) :
    valsSum (processEval vals e) k =
      if e.op_name = k then valsSum vals k + e.value else valsSum vals k := by
  by_cases hk : e.op_name = k <;> simp [valsSum, dictGet_processEval, hk]

theorem dictGet_foldl_processEval (es : List Evaluation) (vals : List (String × Rat))
    (k : String) :
    dictGet (es.foldl processEval vals) k =
      if evalsHas k es then some (valsSum vals k + evalsSum k es) else dictGet vals k := by
  induction es generalizing vals with
  | nil => simp [evalsHas, evalsSum]
  | cons e rest ih =>
    simp only [List.foldl_cons]
    rw [ih]
    have hcons_has : evalsHas k (e :: rest) = ((e.op_name == k) || evalsHas k rest) := by
      simp [evalsHas]
    have hcons_sum : evalsSum k (e :: rest) =
        (if e.op_name == k then e.value + evalsSum k rest else evalsSum k rest) := by
      by_cases hk : (e.op_name == k) = true <;> simp [evalsSum, List.filter_cons, hk]
    by_cases hk : e.op_name = k <;> by_cases hr : evalsHas k rest = true
    · simp [hk, hr, valsSum_processEval, hcons_has, hcons_sum, add_assoc]
    · simp only [Bool.not_eq_true] at hr
      simp [hk, hr, valsSum_processEval, dictGet_processEval, hcons_has, hcons_sum,
            evalsSum_eq_zero_of_not_has k rest hr]
    · simp [hk, hr, valsSum_processEval, dictGet_processEval, hcons_has, hcons_sum]
    · simp only [Bool.not_eq_true] at hr
      simp [hk, hr, valsSum_processEval, dictGet_processEval, hcons_has, hcons_sum]

theorem docsSum_eq_zero_of_not_has (k : String) (docs : List SearchDoc)
    (h : docsHas k docs = false) : docsSum k docs = 0 := by
  induction docs with
  | nil => rfl
  | cons d rest ih =>
    simp only [docsHas, List.any_cons, Bool.or_eq_false_iff] at h
    simp [docsSum, evalsSum_eq_zero_of_not_has k _ h.1]
    simpa [docsSum] using ih h.2

theorem valsSum_foldl_processEval (es : List Evaluation) (vals : List (String × Rat))
    (k : String) :
    valsSum (es.foldl processEval vals) k =
      valsSum vals k + (if evalsHas k es then evalsSum k es else 0) := by
  by_cases h : evalsHas k es = true <;>
    simp [valsSum, dictGet_foldl_processEval, h]

theorem dictGet_foldl_processDoc (docs : List SearchDoc) (vals : List (String × Rat))
    (k : String) :
    dictGet (docs.foldl processDoc vals) k =
      if docsHas k docs then some (valsSum vals k + docsSum k docs) else dictGet vals k := by
  induction docs generalizing vals with
  | nil => simp [docsHas, docsSum]
  | cons d rest ih =>
    simp only [List.foldl_cons]
    rw [ih]
    have hget : dictGet (processDoc vals d) k =
        if evalsHas k d.evaluations then
          some (valsSum vals k + evalsSum k d.evaluations)
        else dictGet vals k := dictGet_foldl_processEval d.evaluations vals k
    have hsum : valsSum (processDoc vals d) k =
        valsSum vals k + (if evalsHas k d.evaluations then evalsSum k d.evaluations else 0) :=
      valsSum_foldl_processEval d.evaluations vals k
    have hcons_has : docsHas k (d :: rest) = (evalsHas k d.evaluations || docsHas k rest) := by
      simp [docsHas]
    have hcons_sum : docsSum k (d :: rest) = evalsSum k d.evaluations + docsSum k rest := by
      simp [docsSum]
    by_cases hk : evalsHas k d.evaluations = true <;> by_cases hr : docsHas k rest = true
    · simp [hk, hr, hsum, hget, hcons_has, hcons_sum, add_assoc]
    · simp only [Bool.not_eq_true] at hr
      simp [hk, hr, hsum, hget, hcons_has, hcons_sum,
            docsSum_eq_zero_of_not_has k rest hr]
    · simp only [Bool.not_eq_true] at hk
      simp [hk, hr, hsum, hget, hcons_has, hcons_sum,
            evalsSum_eq_zero_of_not_has k _ hk]
    · simp only [Bool.not_eq_true] at hr
      simp [hk, hr, hsum, hget, hcons_has, hcons_sum]

theorem valsSum_foldl_processDoc (docs : List SearchDoc) (vals : List (String × Rat))
    (k : String) :
    valsSum (docs.foldl processDoc vals) k =
      valsSum vals k + (if docsHas k docs then docsSum k docs else 0) := by
  by_cases h : docsHas k docs = true <;>
    simp [valsSum, dictGet_foldl_processDoc, h]

theorem process_result_op_name (cb : OptimizerCallback) (r : Response) :
    (cb.process_result r).op_name = cb.op_name := rfl

theorem process_result_n_docs (cb : OptimizerCallback) (r : Response) :
    (cb.process_result r).n_docs = cb.n_docs + r.docs.length := rfl

theorem dictGet_process_result (cb : OptimizerCallback) (r : Response) (k : String) :
    dictGet (cb.process_result r).evaluation_values k =
      if docsHas k r.docs then
        some (valsSum cb.evaluation_values k + docsSum k r.docs)
      else dictGet cb.evaluation_values k :=
  dictGet_foldl_processDoc r.docs cb.evaluation_values k

theorem run_callback_op_name (rs : List Response) (cb : OptimizerCallback) :
    (run_callback cb rs).op_name = cb.op_name := by
  induction rs generalizing cb with
  | nil => rfl
  | cons r rest ih => simpa [run_callback] using ih (cb.process_result r)

theorem run_callback_n_docs (rs : List Response) (cb : OptimizerCallback) :
    (run_callback cb rs).n_docs = cb.n_docs + totalDocs rs := by
  induction rs generalizing cb with
  | nil => simp [run_callback, totalDocs]
  | cons r rest ih =>
    simp only [run_callback, List.foldl_cons] at *
    rw [ih (cb.process_result r)]
    simp [process_result_n_docs, totalDocs, add_assoc]

theorem metricSum_eq_zero_of_not_has (k : String) (rs : List Response)
    (h : rsHas k rs = false) : metricSum k rs = 0 := by
  induction rs with
  | nil => rfl
  | cons r rest ih =>
    simp only [rsHas, List.any_cons, Bool.or_eq_false_iff] at h
    simp [metricSum, docsSum_eq_zero_of_not_has k _ h.1]
    simpa [metricSum] using ih h.2

theorem dictGet_run_callback (rs : List Response) (cb : OptimizerCallback) (k : String) :
    dictGet (run_callback cb rs).evaluation_values k =
      if rsHas k rs then
        some (valsSum cb.evaluation_values k + metricSum k rs)
      else dictGet cb.evaluation_values k := by
  induction rs generalizing cb with
  | nil => simp [run_callback, rsHas, metricSum]
  | cons r rest ih =>
    simp only [run_callback, List.foldl_cons] at *
    rw [ih (cb.process_result r)]
    have hget := dictGet_process_result cb r k
    have hsum : valsSum (cb.process_result r).evaluation_values k =
        valsSum cb.evaluation_values k + (if docsHas k r.docs then docsSum k r.docs else 0) :=
      valsSum_foldl_processDoc r.docs cb.evaluation_values k
    have hcons_has : rsHas k (r :: rest) = (docsHas k r.docs || rsHas k rest) := by
      simp [rsHas]
    have hcons_sum : metricSum k (r :: rest) = docsSum k r.docs + metricSum k rest := by
      simp [metricSum]
    by_cases hk : docsHas k r.docs = true <;> by_cases hr : rsHas k rest = true
    · simp [hk, hr, hsum, hget, hcons_has, hcons_sum, add_assoc]
    · simp only [Bool.not_eq_true] at hr
      simp [hk, hr, hsum, hget, hcons_has, hcons_sum,
            metricSum_eq_zero_of_not_has k rest hr]
    · simp only [Bool.not_eq_true] at hk
      simp [hk, hr, hsum, hget, hcons_has, hcons_sum,
            docsSum_eq_zero_of_not_has k _ hk]
    · simp only [Bool.not_eq_true] at hr
      simp [hk, hr, hsum, hget, hcons_has, hcons_sum]

theorem mapValsDiv_ok (vals : List (String × Rat)) (n : Nat) (hn : n ≠ 0) :
    mapValsDiv vals n = .ok (vals.map (fun kv => (kv.1, kv.2 / (n : Rat)))) := by
  induction vals with
  | nil => rfl
  | cons kv rest ih =>
    simp only [mapValsDiv, ratDiv, hn, if_neg, ih]
    rfl

theorem get_mean_evaluation_scalar (cb : OptimizerCallback) (m : String) (v : Rat)
    (hop : cb.op_name = some m) (hget : dictGet cb.evaluation_values m = some v)
    (hn : cb.n_docs ≠ 0) :
    cb.get_mean_evaluation = .ok (.scalar (v / (cb.n_docs : Rat))) := by
  simp [OptimizerCallback.get_mean_evaluation, hop, hget, ratDiv, hn, Except.map]

theorem get_mean_evaluation_dict (cb : OptimizerCallback)
    (hop : cb.op_name = none) (hn : cb.n_docs ≠ 0) :
    cb.get_mean_evaluation =
      .ok (.dict (cb.evaluation_values.map (fun kv => (kv.1, kv.2 / (cb.n_docs : Rat))))) := by
  simp [OptimizerCallback.get_mean_evaluation, hop, mapValsDiv_ok _ _ hn, Except.map]

theorem evalsHas_of_one (m : String) (d : SearchDoc)
    (h : (d.evaluations.filter (fun e => e.op_name == m)).length = 1) :
    evalsHas m d.evaluations = true := by
  unfold evalsHas
  rw [List.any_eq_true]
  have hne : d.evaluations.filter (fun e => e.op_name == m) ≠ [] := by
    intro hnil
    rw [hnil] at h
    simp at h
  obtain ⟨e, he⟩ := List.exists_mem_of_ne_nil _ hne
  rw [List.mem_filter] at he
  exact ⟨e, he.1, he.2⟩

theorem rsHas_of_totalDocs_pos (rs : List Response) (m : String)
    (hone : ∀ r ∈ rs, ∀ d ∈ r.docs,
      (d.evaluations.filter (fun e => e.op_name == m)).length = 1)
    (hpos : 0 < totalDocs rs) : rsHas m rs = true := by
  induction rs with
  | nil => simp [totalDocs] at hpos
  | cons r rest ih =>
    have hsplit : rsHas m (r :: rest) = (docsHas m r.docs || rsHas m rest) := by
      simp [rsHas]
    rcases hdocs : r.docs with _ | ⟨d, ds⟩
    · have hpos2 : 0 < totalDocs rest := by
        simpa [totalDocs, hdocs] using hpos
      have h2 := ih (fun r2 hr2 => hone r2 (List.mem_cons_of_mem _ hr2)) hpos2
      rw [hsplit, h2, Bool.or_true]
    · have hone_d := hone r (List.mem_cons_self _ _) d (by rw [hdocs]; exact List.mem_cons_self _ _)
      have he := evalsHas_of_one m d hone_d
      have hd : docsHas m r.docs = true := by
        simp [docsHas, hdocs, List.any_cons, he]
      rw [hsplit, hd, Bool.true_or]

/-- C1: for every trial whose callback has recorded N greater than zero
documents with per-document evaluation values for metric m summing to S
(one value per document for that metric), get_mean_evaluation returns
S divided by N for m, both in the op_name-set case and in the
all-metrics dictionary case. -/
theorem mean_evaluation_is_sum_div_count (rs : List Response) (m : String) (N : Nat) (S : Rat)
    (hN : totalDocs rs = N) (hpos : 0 < N) (hS : metricSum m rs = S)
    (hone : ∀ r ∈ rs, ∀ d ∈ r.docs,
      (d.evaluations.filter (fun e => e.op_name == m)).length = 1) :
    (run_callback (OptimizerCallback.init (some m)) rs).get_mean_evaluation
        = .ok (.scalar (S / (N : Rat)))
    ∧ ∃ ds, (run_callback (OptimizerCallback.init none) rs).get_mean_evaluation
        = .ok (.dict ds) ∧ dictGet ds m = some (S / (N : Rat)) := by
  have hrs : rsHas m rs = true := rsHas_of_totalDocs_pos rs m hone (hN ▸ hpos)
  have hvals0 : valsSum (OptimizerCallback.init (some m)).evaluation_values m = 0 := rfl
  have hvals0n : valsSum (OptimizerCallback.init none).evaluation_values m = 0 := rfl
  constructor
  · have hop : (run_callback (OptimizerCallback.init (some m)) rs).op_name = some m :=
      run_callback_op_name rs _
    have hnd : (run_callback (OptimizerCallback.init (some m)) rs).n_docs = N := by
      rw [run_callback_n_docs, hN]
      simp [OptimizerCallback.init]
    have hget : dictGet (run_callback (OptimizerCallback.init (some m)) rs).evaluation_values m
        = some S := by
      rw [dictGet_run_callback, if_pos hrs, hvals0, zero_add, hS]
    rw [get_mean_evaluation_scalar _ m S hop hget (by omega), hnd]
  · have hop : (run_callback (OptimizerCallback.init none) rs).op_name = none :=
      run_callback_op_name rs _
    have hnd : (run_callback (OptimizerCallback.init none) rs).n_docs = N := by
      rw [run_callback_n_docs, hN]
      simp [OptimizerCallback.init]
    have hn2 : (run_callback (OptimizerCallback.init none) rs).n_docs ≠ 0 := by omega
    refine ⟨_, get_mean_evaluation_dict _ hop hn2, ?_⟩
    have hmv := dictGet_map_value
      (run_callback (OptimizerCallback.init none) rs).evaluation_values
      (fun v => v / (((run_callback (OptimizerCallback.init none) rs).n_docs : Nat) : Rat)) m
    have hget : dictGet (run_callback (OptimizerCallback.init none) rs).evaluation_values m
        = some S := by
      rw [dictGet_run_callback, if_pos hrs, hvals0n, zero_add, hS]
    rw [hmv, hget, hnd]
    rfl

/-- C1 witness: one response holding one document whose single evaluation
for metric p has value 2 gives mean 2 divided by 1. -/
theorem mean_evaluation_is_sum_div_count_witness :
    (run_callback (OptimizerCallback.init (some "p"))
        [⟨[⟨[⟨"p", 2⟩]⟩]⟩]).get_mean_evaluation = .ok (.scalar ((2 : Rat) / ((1 : Nat) : Rat)))
    ∧ ∃ ds, (run_callback (OptimizerCallback.init none)
        [⟨[⟨[⟨"p", 2⟩]⟩]⟩]).get_mean_evaluation = .ok (.dict ds)
        ∧ dictGet ds "p" = some ((2 : Rat) / ((1 : Nat) : Rat)) :=
  mean_evaluation_is_sum_div_count [⟨[⟨[⟨"p", 2⟩]⟩]⟩] "p" 1 2 rfl (by decide)
    (by simp [metricSum, docsSum, evalsSum]) (by decide)

/-- C4: the Optimizer reuses one OptimizerCallback instance for every trial
without resetting it, so the mean a trial reports depends on the query
results of earlier trials: after a first trial recording one document with
metric m at value 1, a second trial recording one document with value 3
reports mean 2—whereas the same second trial alone reports mean 3. -/
theorem objective_mean_depends_on_earlier_trials :
    (run_callback (run_callback (OptimizerCallback.init none)
        [⟨[⟨[⟨"m", 1⟩]⟩]⟩]) [⟨[⟨[⟨"m", 3⟩]⟩]⟩]).get_mean_evaluation
      = .ok (.dict [("m", 2)])
    ∧ (run_callback (OptimizerCallback.init none)
        [⟨[⟨[⟨"m", 3⟩]⟩]⟩]).get_mean_evaluation = .ok (.dict [("m", 3)]) := by
  constructor <;>
    norm_num [run_callback, OptimizerCallback.process_result, processDoc, processEval,
      dictInsert, dictGet, OptimizerCallback.init, OptimizerCallback.get_mean_evaluation,
      mapValsDiv, ratDiv, Except.map] <;>
    rfl

theorem evalsSum_nonneg (k : String) (es : List Evaluation)
    (h : ∀ e ∈ es, 0 ≤ e.value) : 0 ≤ evalsSum k es := by
  unfold evalsSum
  apply List.sum_nonneg
  intro x hx
  simp only [List.mem_map, List.mem_filter] at hx
  obtain ⟨e, ⟨he, _⟩, hx2⟩ := hx
  rw [← hx2]
  exact h e he

theorem docsSum_nonneg (k : String) (docs : List SearchDoc)
    (h : ∀ d ∈ docs, ∀ e ∈ d.evaluations, 0 ≤ e.value) : 0 ≤ docsSum k docs := by
  unfold docsSum
  apply List.sum_nonneg
  intro x hx
  simp only [List.mem_map] at hx
  obtain ⟨d, hd, hx2⟩ := hx
  rw [← hx2]
  exact evalsSum_nonneg k d.evaluations (h d hd)

/-- C6: given a response whose documents carry only non-negative
evaluation values, and a callback state whose per-metric running sums are
all non-negative, process_result leaves n_docs non-decreasing and every
per-metric running sum non-negative and non-decreasing (n_docs is a
natural count, hence non-negative throughout). -/
theorem accumulator_nonneg_monotone (cb : OptimizerCallback) (r : Response)
    (hv : ∀ d ∈ r.docs, ∀ e ∈ d.evaluations, 0 ≤ e.value)
    (hnn : ∀ k, 0 ≤ valsSum cb.evaluation_values k) :
    cb.n_docs ≤ (cb.process_result r).n_docs
    ∧ ∀ k, 0 ≤ valsSum (cb.process_result r).evaluation_values k
        ∧ valsSum cb.evaluation_values k ≤ valsSum (cb.process_result r).evaluation_values k := by
  constructor
  · rw [process_result_n_docs]
    exact Nat.le_add_right _ _
  · intro k
    have hmono : valsSum (cb.process_result r).evaluation_values k =
        valsSum cb.evaluation_values k + (if docsHas k r.docs then docsSum k r.docs else 0) :=
      valsSum_foldl_processDoc r.docs cb.evaluation_values k
    have hd : 0 ≤ (if docsHas k r.docs then docsSum k r.docs else (0 : Rat)) := by
      split
      · exact docsSum_nonneg k r.docs hv
      · exact le_refl 0
    constructor
    · rw [hmono]
      exact add_nonneg (hnn k) hd
    · rw [hmono]
      exact le_add_of_nonneg_right hd

/-- C6 witness: a fresh callback processing one document with one
non-negative value satisfies the conclusion. -/
theorem accumulator_nonneg_monotone_witness :
    (OptimizerCallback.init none).n_docs
        ≤ ((OptimizerCallback.init none).process_result ⟨[⟨[⟨"m", 1⟩]⟩]⟩).n_docs
    ∧ ∀ k, 0 ≤ valsSum
          ((OptimizerCallback.init none).process_result ⟨[⟨[⟨"m", 1⟩]⟩]⟩).evaluation_values k
        ∧ valsSum (OptimizerCallback.init none).evaluation_values k
          ≤ valsSum
              ((OptimizerCallback.init none).process_result ⟨[⟨[⟨"m", 1⟩]⟩]⟩).evaluation_values k :=
  accumulator_nonneg_monotone (OptimizerCallback.init none) ⟨[⟨[⟨"m", 1⟩]⟩]⟩
    (by intro d hd e he; simp at hd; subst hd; simp at he; subst he; norm_num)
    (by intro k; simp [valsSum, OptimizerCallback.init, dictGet])

/-- C9 counterexample: on a callback in its initial state with op_name
unset, n_docs is 0 yet get_mean_evaluation succeeds with an empty
dictionary rather than failing with a division-by-zero error. -/
theorem get_mean_zero_docs_succeeds :
    (OptimizerCallback.init none).n_docs = 0
    ∧ (OptimizerCallback.init none).get_mean_evaluation = .ok (.dict []) :=
  ⟨rfl, rfl⟩

/-- C9 (amended): with n_docs = 0 and no recorded values, the op_name-set
case fails with KeyError on the dictionary lookup before any division, and
the all-metrics case returns an empty dictionary without error; the
unguarded division raises ZeroDivisionError only in the unreachable state
holding a recorded value with n_docs = 0; under the precondition
n_docs greater than 0, the ZeroDivisionError branch is unreachable. -/
theorem get_mean_zero_docs_cases (m : String) (cb : OptimizerCallback)
    (hn : 0 < cb.n_docs) :
    (OptimizerCallback.init (some m)).get_mean_evaluation = .error .keyError
    ∧ (OptimizerCallback.init none).get_mean_evaluation = .ok (.dict [])
    ∧ ({ op_name := none, evaluation_values := [("m", 1)], n_docs := 0 } :
        OptimizerCallback).get_mean_evaluation = .error .zeroDivisionError
    ∧ cb.get_mean_evaluation ≠ .error .zeroDivisionError := by
  refine ⟨rfl, rfl, rfl, ?_⟩
  have hn0 : cb.n_docs ≠ 0 := by omega
  cases hop : cb.op_name with
  | none =>
    simp [OptimizerCallback.get_mean_evaluation, hop, mapValsDiv_ok _ _ hn0, Except.map]
  | some op =>
    cases hget : dictGet cb.evaluation_values op with
    | none => simp [OptimizerCallback.get_mean_evaluation, hop, hget]
    | some v => simp [OptimizerCallback.get_mean_evaluation, hop, hget, ratDiv, hn0, Except.map]

/-- C9 witness: instantiation at metric x and a callback with one recorded
document. -/
theorem get_mean_zero_docs_cases_witness :
    (OptimizerCallback.init (some "x")).get_mean_evaluation = .error .keyError
    ∧ (OptimizerCallback.init none).get_mean_evaluation = .ok (.dict [])
    ∧ ({ op_name := none, evaluation_values := [("m", 1)], n_docs := 0 } :
        OptimizerCallback).get_mean_evaluation = .error .zeroDivisionError
    ∧ ({ op_name := none, evaluation_values := [], n_docs := 1 } :
        OptimizerCallback).get_mean_evaluation ≠ .error .zeroDivisionError :=
  get_mean_zero_docs_cases "x" { op_name := none, evaluation_values := [], n_docs := 1 }
    (by decide)

theorem except_bind_ok {ε α β : Type} (a : α) (f : α → Except ε β) :
    (Except.ok a : Except ε α) >>= f = f a := rfl

theorem except_bind_error {ε α β : Type} (e : ε) (f : α → Except ε β) :
    (Except.error e : Except ε α) >>= f = Except.error e := rfl

theorem load_env_dirs (files : List (String × List (String × YVal))) (cfg : RunnerCfg)
    (st st1 : SysState) (h : load_env files cfg st = .ok st1) : st1.dirs = st.dirs := by
  cases cfg with
  | mk ey we ow =>
    cases ey with
    | none =>
      simp only [load_env] at h
      have := Except.ok.inj h
      rw [← this]
    | some p =>
      simp only [load_env] at h
      cases hl : loadYaml files p with
      | error e =>
        rw [hl, except_bind_error] at h
        exact Except.noConfusion h
      | ok params =>
        rw [hl, except_bind_ok] at h
        have := Except.ok.inj h
        rw [← this]

/-- C3 counterexample: run_indexing with overwrite_workspace False on an
existing workspace skips indexing but is not a no-op: _load_env runs first
and mutates the environment (and the env_parameters attribute). -/
theorem run_indexing_skip_mutates_environment :
    run_indexing [("env.yml", [("FOO", .str "bar")])]
        ⟨some "env.yml", "JINA_WORKSPACE", false⟩ (fun _ => .ok ())
        ⟨[], none, ["w"]⟩ "i.yml" (some "w")
      = .ok (⟨[("FOO", "bar")], some [("FOO", .str "bar")], ["w"]⟩, [])
    ∧ (⟨[("FOO", "bar")], some [("FOO", .str "bar")], ["w"]⟩ : SysState).environ ≠
        (⟨[], none, ["w"]⟩ : SysState).environ := by
  constructor
  · rfl
  · simp

/-- C3 (amended): when overwrite_workspace is False and the resolved
workspace exists, run_indexing skips indexing: the indexing flow is never
invoked, no event happens and the directories are unchanged; but the
environment-loading step still runs first, so state reachable through
_load_env (os.environ, env_parameters) may change. -/
theorem run_indexing_skips_when_workspace_exists
    (files : List (String × List (String × YVal))) (cfg : RunnerCfg)
    (flowIndex : String → Except PyError Unit) (st st1 : SysState)
    (iy : String) (w : Option String) (ws : String)
    (hov : cfg.overwrite_workspace = false)
    (hload : load_env files cfg st = .ok st1)
    (hres : resolveWorkspace st1.environ cfg.workspace_env w = .ok ws)
    (hex : ws ∈ st1.dirs) :
    run_indexing files cfg flowIndex st iy w = .ok (st1, []) ∧ st1.dirs = st.dirs := by
  constructor
  · simp [run_indexing, hload, except_bind_ok, hres, hex, hov]
  · exact load_env_dirs files cfg st st1 hload

/-- C3 witness: with no env_yaml, a present workspace w and overwrite off,
run_indexing returns the unchanged state and no events. -/
theorem run_indexing_skips_when_workspace_exists_witness :
    run_indexing [] ⟨none, "JINA_WORKSPACE", false⟩ (fun _ => .ok ())
        ⟨[], none, ["w"]⟩ "i.yml" (some "w")
      = .ok (⟨[], none, ["w"]⟩, [])
    ∧ (⟨[], none, ["w"]⟩ : SysState).dirs = (⟨[], none, ["w"]⟩ : SysState).dirs :=
  run_indexing_skips_when_workspace_exists [] ⟨none, "JINA_WORKSPACE", false⟩
    (fun _ => .ok ()) ⟨[], none, ["w"]⟩ ⟨[], none, ["w"]⟩ "i.yml" (some "w") "w"
    rfl rfl rfl (by decide)

/-- C7: with overwrite_workspace True and an existing resolved workspace,
run_indexing deletes the workspace first and only then invokes the
indexing flow; and clean_workdir deletes nothing when the directory does
not exist. -/
theorem run_indexing_overwrite_deletes_before_indexing
    (files : List (String × List (String × YVal))) (cfg : RunnerCfg)
    (flowIndex : String → Except PyError Unit) (st st1 : SysState)
    (iy : String) (w : Option String) (ws : String)
    (hov : cfg.overwrite_workspace = true)
    (hload : load_env files cfg st = .ok st1)
    (hres : resolveWorkspace st1.environ cfg.workspace_env w = .ok ws)
    (hex : ws ∈ st1.dirs)
    (hflow : flowIndex iy = .ok ()) :
    run_indexing files cfg flowIndex st iy w
      = .ok ({ st1 with dirs := st1.dirs.erase ws },
             [.workspaceDeleted ws, .flowIndexed iy])
    ∧ ∀ dirs w2, w2 ∉ dirs → clean_workdir dirs w2 = (dirs, []) := by
  constructor
  · simp [run_indexing, hload, except_bind_ok, hres, hex, hov, clean_workdir, hflow]
  · intro dirs w2 h
    simp [clean_workdir, h]

/-- C7 witness: concrete run with an existing workspace w and overwrite
on: the deletion event precedes the indexing event. -/
theorem run_indexing_overwrite_deletes_before_indexing_witness :
    run_indexing [] ⟨none, "JINA_WORKSPACE", true⟩ (fun _ => .ok ())
        ⟨[], none, ["w"]⟩ "i.yml" (some "w")
      = .ok (⟨[], none, []⟩, [.workspaceDeleted "w", .flowIndexed "i.yml"])
    ∧ ∀ dirs w2, w2 ∉ dirs → clean_workdir dirs w2 = (dirs, []) :=
  run_indexing_overwrite_deletes_before_indexing [] ⟨none, "JINA_WORKSPACE", true⟩
    (fun _ => .ok ()) ⟨[], none, ["w"]⟩ ⟨[], none, ["w"]⟩ "i.yml" (some "w") "w"
    rfl rfl rfl (by decide) rfl

/-- C10: in the workspace resolution of run_indexing, a set environment
variable named workspace_env determines the workspace and the explicit
workspace argument is ignored; the argument is used only when that
variable is unset. -/
theorem resolveWorkspace_env_overrides (environ : List (String × String))
    (we w v : String) :
    (dictGet environ we = some v → resolveWorkspace environ we (some w) = .ok v)
    ∧ (dictGet environ we = none → resolveWorkspace environ we (some w) = .ok w) := by
  constructor <;> intro h <;> simp [resolveWorkspace, h]

/-- C10 witness: with the variable set the argument is ignored; with it
unset the argument is used. -/
theorem resolveWorkspace_env_overrides_witness :
    resolveWorkspace [("JINA_WORKSPACE", "envws")] "JINA_WORKSPACE" (some "argws")
        = .ok "envws"
    ∧ resolveWorkspace [] "JINA_WORKSPACE" (some "argws") = .ok "argws" :=
  ⟨(resolveWorkspace_env_overrides [("JINA_WORKSPACE", "envws")]
      "JINA_WORKSPACE" "argws" "envws").1 rfl,
   (resolveWorkspace_env_overrides [] "JINA_WORKSPACE" "argws" "envws").2 rfl⟩

theorem substVal_getD (trial : List (String × YVal)) (v : YVal) :
    substVal trial v = (dictGet trial (lstripDollar v.pyStr)).getD v := by
  unfold substVal
  cases dictGet trial (lstripDollar v.pyStr) <;> rfl

theorem dictGet_map_keyfun {α β : Type} (d : List (String × α)) (f : String → α → β)
    (k : String) :
    dictGet (d.map (fun kv => (kv.1, f kv.1 kv.2))) k = (dictGet d k).map (f k) := by
  induction d with
  | nil => rfl
  | cons kv rest ih =>
    by_cases h : kv.1 = k
    · subst h
      simp [dictGet]
    · simp [dictGet, h, ih]

/-- C2 counterexample: a token naming sampled parameter x occurs in a
section named other; the code leaves it unchanged while the claimed
everywhere-substitution replaces it. Moreover a double-dollar token in a
with section does not match any parameter after stripping one leading
dollar, so the claim keeps it, while the code (stripping all leading
dollars) replaces it. -/
theorem replace_param_misses_other_sections :
    replace_param [("other", [("p", .str "$x")])] [("x", .num 5)]
      = [("other", [("p", .str "$x")])]
    ∧ replace_param_claimed [("other", [("p", .str "$x")])] [("x", .num 5)]
      = [("other", [("p", .num 5)])]
    ∧ replace_param [("with", [("q", .str "$$x")])] [("x", .num 5)]
      = [("with", [("q", .num 5)])]
    ∧ replace_param_claimed [("with", [("q", .str "$$x")])] [("x", .num 5)]
      = [("with", [("q", .str "$$x")])] := by
  refine ⟨?_, ?_, ?_, ?_⟩ <;> rfl

/-- C2 (amended): substitution touches only the sections named with and
metas; inside those, a value is replaced by the sampled parameter whose
name equals the value string after stripping all leading dollar
characters, when that parameter exists, and is kept unchanged otherwise;
every section with another name is left entirely unchanged. -/
theorem replace_param_substitutes_in_with_metas
    (P : List (String × List (String × YVal))) (T : List (String × YVal))
    (s p : String) :
    ((s ≠ "with" ∧ s ≠ "metas") → dictGet (replace_param P T) s = dictGet P s)
    ∧ ((s = "with" ∨ s = "metas") →
        paramAt (replace_param P T) s p
          = (paramAt P s p).map (fun v => (dictGet T (lstripDollar v.pyStr)).getD v)) := by
  have hkey := dictGet_map_keyfun P
    (fun k es => if k = "with" ∨ k = "metas" then replace_section T es else es) s
  constructor
  · intro hs
    unfold replace_param
    rw [hkey]
    cases hd : dictGet P s <;> simp [hs.1, hs.2]
  · intro hs
    unfold replace_param paramAt
    rw [hkey]
    cases hd : dictGet P s with
    | none => simp
    | some es =>
      simp only [Option.map_some', Option.some_bind, if_pos hs]
      unfold replace_section
      have := dictGet_map_value es (substVal T) p
      rw [this]
      cases hg : dictGet es p <;> simp [substVal_getD]

/-- C2 amended witness: in the with section a dollar token is replaced,
and a section named other keeps its lookup unchanged. -/
theorem replace_param_substitutes_in_with_metas_witness :
    paramAt (replace_param [("with", [("q", .str "$x")])] [("x", .num 5)]) "with" "q"
      = some (.num 5)
    ∧ dictGet (replace_param [("other", [("p", .str "$x")])] [("x", .num 5)]) "other"
      = dictGet [("other", [("p", YVal.str "$x")])] "other" :=
  ⟨(replace_param_substitutes_in_with_metas [("with", [("q", .str "$x")])]
      [("x", .num 5)] "with" "q").2 (Or.inl rfl),
   (replace_param_substitutes_in_with_metas [("other", [("p", .str "$x")])]
      [("x", .num 5)] "other" "p").1 (by decide)⟩

theorem dictGet_isSome_of_mem {α : Type} (d : List (String × α)) (k : String)
    (h : k ∈ d.map Prod.fst) : ∃ v, dictGet d k = some v := by
  induction d with
  | nil => simp at h
  | cons kv rest ih =>
    by_cases he : kv.1 = k
    · exact ⟨kv.2, by simp [dictGet, he]⟩
    · simp only [List.map_cons, List.mem_cons] at h
      rcases h with h | h
      · exact absurd h.symm he
      · obtain ⟨v, hv⟩ := ih h
        exact ⟨v, by simp [dictGet, he, hv]⟩

/-- C5: the written best-configuration mapping is exactly the merge of
the environment parameters from env_yaml with the winning trial
parameters: every key maps to the trial value when the trial sampled it,
else to its environment value. -/
theorem export_params_is_merge (env best : List (String × YVal)) (k : String)
    (hnd : (best.map Prod.fst).Nodup) :
    dictGet (export_params env best) k =
      match dictGet best k with
      | some v => some v
      | none => dictGet env k := by
  induction best generalizing env with
  | nil => simp [export_params, dictGet]
  | cons kv rest ih =>
    simp only [List.map_cons, List.nodup_cons] at hnd
    have hstep : export_params env (kv :: rest) =
        export_params (dictInsert env kv.1 kv.2) rest := rfl
    rw [hstep, ih _ hnd.2]
    by_cases hk : k ∈ rest.map Prod.fst
    · have hk1 : ¬ kv.1 = k := fun he => hnd.1 (he ▸ hk)
      obtain ⟨v, hv⟩ := dictGet_isSome_of_mem rest k hk
      simp [hv, dictGet, hk1]
    · have hg : dictGet rest k = none := dictGet_eq_none_of_not_mem rest k hk
      by_cases hk1 : kv.1 = k <;>
        simp [hg, dictGet, dictGet_dictInsert, hk1]

/-- C5 witness: the trial value 9 for b overrides the environment value 2. -/
theorem export_params_is_merge_witness :
    dictGet (export_params [("a", .num 1), ("b", .num 2)]
        [("b", .num 9), ("c", .num 3)]) "b" = some (.num 9) :=
  export_params_is_merge [("a", .num 1), ("b", .num 2)]
    [("b", .num 9), ("c", .num 3)] "b" (by decide)

/-- C8: no operation catches or transforms a failure: a missing or
unreadable env_yaml fails the whole run_evaluation with the original
error; a failing parameter-YAML load or a failing external suggest call
fails _trial_parameter_sampler with the original error; a failing
external indexing flow fails run_indexing with the original error. -/
theorem failures_propagate_unhandled
    (efiles : List (String × List (String × YVal)))
    (pfiles : List (String × List (String × List (String × YVal))))
    (cfg cfg2 : RunnerCfg)
    (flowIndex : String → Except PyError Unit)
    (flowQuery : String → Except PyError (List Response))
    (st : SysState) (iy qy wsp p py py2 we param : String)
    (e : PyError) (cb : OptimizerCallback)
    (sg : String → String → List (String × YVal) → Except PyError YVal)
    (spec2 : List (String × YVal)) (t : YVal) :
    (cfg.env_yaml = some p → loadYaml efiles p = .error e →
      run_evaluation efiles cfg flowIndex flowQuery st iy qy wsp cb = .error e)
    ∧ (loadYaml pfiles py = .error e →
      trial_parameter_sampler pfiles py we sg = .error e)
    ∧ (loadYaml pfiles py2 = .ok [(param, spec2)] →
      dictGet spec2 "type" = some t →
      sg ("suggest_" ++ t.pyStr) param (dictErase spec2 "type") = .error e →
      trial_parameter_sampler pfiles py2 we sg = .error e)
    ∧ (cfg2.env_yaml = none →
      dictGet st.environ cfg2.workspace_env = none → wsp ∉ st.dirs →
      flowIndex iy = .error e →
      run_indexing efiles cfg2 flowIndex st iy (some wsp) = .error e) := by
  refine ⟨?_, ?_, ?_, ?_⟩
  · intro h1 h2
    have hle : load_env efiles cfg st = .error e := by
      simp only [load_env, h1, h2, except_bind_error]
    simp only [run_evaluation, hle, except_bind_error]
  · intro h1
    simp only [trial_parameter_sampler, h1, except_bind_error]
  · intro h1 h2 h3
    simp only [trial_parameter_sampler, h1, except_bind_ok, sampleParams, h2, h3,
      except_bind_error]
  · intro h1 h2 h3 h4
    have hle : load_env efiles cfg2 st = .ok st := by
      simp only [load_env, h1]
    have hres : resolveWorkspace st.environ cfg2.workspace_env (some wsp) = .ok wsp := by
      simp only [resolveWorkspace, h2]
    simp only [run_indexing, hle, except_bind_ok, hres]
    rw [if_neg h3, h4, except_bind_error]

/-- C8 witness: concrete missing env file, missing parameter file,
failing suggest call and failing indexing flow, each propagated. -/
theorem failures_propagate_unhandled_witness :
    run_evaluation [] ⟨some "env.yml", "JINA_WORKSPACE", false⟩
        (fun _ => .error .fileNotFoundError) (fun _ => .ok [])
        ⟨[], none, []⟩ "i.yml" "q.yml" "w" (OptimizerCallback.init none)
      = .error .fileNotFoundError
    ∧ trial_parameter_sampler [("p2.yml", [("x", [("type", .str "int")])])]
        "params.yml" "JINA_WORKSPACE" (fun _ _ _ => .error .fileNotFoundError)
      = .error .fileNotFoundError
    ∧ trial_parameter_sampler [("p2.yml", [("x", [("type", .str "int")])])]
        "p2.yml" "JINA_WORKSPACE" (fun _ _ _ => .error .fileNotFoundError)
      = .error .fileNotFoundError
    ∧ run_indexing [] ⟨none, "JINA_WORKSPACE", false⟩
        (fun _ => .error .fileNotFoundError) ⟨[], none, []⟩ "i.yml" (some "w")
      = .error .fileNotFoundError := by
  have T := failures_propagate_unhandled [] [("p2.yml", [("x", [("type", .str "int")])])]
    ⟨some "env.yml", "JINA_WORKSPACE", false⟩ ⟨none, "JINA_WORKSPACE", false⟩
    (fun _ => .error .fileNotFoundError) (fun _ => .ok []) ⟨[], none, []⟩
    "i.yml" "q.yml" "w" "env.yml" "params.yml" "p2.yml" "JINA_WORKSPACE" "x"
    .fileNotFoundError (OptimizerCallback.init none)
    (fun _ _ _ => .error .fileNotFoundError) [("type", .str "int")] (.str "int")
  exact ⟨T.1 rfl rfl, T.2.1 rfl, T.2.2.1 rfl rfl rfl, T.2.2.2 rfl rfl (by decide) rfl⟩

end OptimizeClass
